import Mathlib

/-!
Verification of the Video2PPTTools slide-extraction engine, pipeline
orchestrator, downloader and job-queue coordinator against their
natural-language specification.  The Python sources are shallowly embedded
as executable Lean definitions; numeric video parameters are modelled as
rationals, machine state as explicit records.
-/

namespace Video2PPT

/-- Python `int()` applied to a rational: truncation toward zero
(floor for nonnegative arguments, ceiling for negative ones). -/
def pyInt (q : ℚ) : Int := if 0 ≤ q then ⌊q⌋ else ⌈q⌉

/-- A decoded video frame, abstracted by the two values
`SlideExtractor._is_new_slide` derives from it: `hash` stands for
`_compute_frame_hash` (md5 of the 64x64 grayscale downscale) and `feat` for
`_compute_frame_features` (the flattened, histogram-equalized 128x128
intensity vector).  Bit-identical frames give equal `Frame` values; distinct
frames may share `hash` (a hash of a lossy downscale) while differing in
`feat`. -/
structure Frame where
  hash : Nat
  feat : List ℚ
deriving DecidableEq

/-- Extraction parameters of `SlideExtractor.__init__`.  The cosine scorer
`_compute_similarity` is a floating-point computation with no exact rational
counterpart, so the model carries it as an abstract score function `sim`;
no control decision in the source inspects anything but its returned value. -/
structure ExtractorConfig where
  similarityThreshold : ℚ
  minIntervalSeconds : ℚ
  skipFirstSeconds : ℚ
  imageFormat : String
  sim : List ℚ → List ℚ → ℚ

/-- Mutable comparison state of the extractor: the fields `last_frame_hash`
and `last_frame_features`, both `None` initially. -/
structure ExtractState where
  lastFrameHash : Option Nat
  lastFrameFeatures : Option (List ℚ)
deriving DecidableEq

/-- Comparison state at the start of an extraction run. -/
def initExtractState : ExtractState := ⟨none, none⟩

/-- Model of `SlideExtractor._is_new_slide`: returns the novelty decision,
the reported similarity (`None` for the very first inspected frame), and the
updated comparison state.  The exact-fingerprint-match branch returns with
similarity `1.0` and leaves the stored state untouched, exactly as the
source does. -/
def isNewSlide (cfg : ExtractorConfig) (s : ExtractState) (f : Frame) :
    Bool × Option ℚ × ExtractState :=
  if s.lastFrameHash = some f.hash then
    (false, some 1, s)
  else
    match s.lastFrameFeatures with
    | none => (true, none, ⟨some f.hash, some f.feat⟩)
    | some lastFeat =>
      let similarity := cfg.sim lastFeat f.feat
      if cfg.similarityThreshold ≤ similarity then
        (false, some similarity, ⟨some f.hash, some f.feat⟩)
      else
        (true, some similarity, ⟨some f.hash, some f.feat⟩)

/-- Zero-padding of the Python format spec `04d`: pad with leading zeros to
a minimum width of four digits. -/
def pad4 (n : Nat) : String :=
  let s := toString n
  String.mk (List.replicate (4 - s.length) '0') ++ s

/-- Slide file name `slide_{k:04d}.{format}` assigned in
`SlideExtractor.extract`. -/
def slideFilename (k : Nat) (fmt : String) : String :=
  "slide_" ++ pad4 k ++ "." ++ fmt

/-- One produced slide (`SlideInfo` in `models.py`, restricted to the fields
the claims are about).  `frameIndex` records the loop's `frame_index` at the
moment the slide was saved; in the source it is implicit through
`timestamp_seconds = frame_index / fps` and `last_saved_frame`. -/
structure SlideInfo where
  index : Nat
  filename : String
  frameIndex : Nat
  timestampSeconds : ℚ
  similarity : Option ℚ
deriving DecidableEq

/-- Loop variables of `SlideExtractor.extract`. -/
structure LoopSt where
  frameIndex : Nat
  lastSavedFrame : Int
  st : ExtractState
  slideCount : Nat
deriving DecidableEq

/-- One iteration of the frame loop of `SlideExtractor.extract` on a
successfully decoded frame: skip-offset gate, minimum-interval gate, novelty
check, save. -/
def stepFrame (cfg : ExtractorConfig) (fps : ℚ) (minIntervalFrames : Nat)
    (skipFrames : Int) (ls : LoopSt) (f : Frame) : LoopSt × Option SlideInfo :=
  let timestampSeconds : ℚ := if 0 < fps then (ls.frameIndex : ℚ) / fps else 0
  if (ls.frameIndex : Int) < skipFrames then
    ({ ls with frameIndex := ls.frameIndex + 1 }, none)
  else if (ls.frameIndex : Int) - ls.lastSavedFrame < (minIntervalFrames : Int) then
    ({ ls with frameIndex := ls.frameIndex + 1 }, none)
  else
    match isNewSlide cfg ls.st f with
    | (false, _, s') =>
      ({ ls with frameIndex := ls.frameIndex + 1, st := s' }, none)
    | (true, similarity, s') =>
      let k := ls.slideCount + 1
      ({ frameIndex := ls.frameIndex + 1, lastSavedFrame := (ls.frameIndex : Int),
         st := s', slideCount := k },
       some { index := k, filename := slideFilename k cfg.imageFormat,
              frameIndex := ls.frameIndex, timestampSeconds := timestampSeconds,
              similarity := similarity })

/-- Frame loop of `SlideExtractor.extract` over the frames the decoder
yields, in order, collecting saved slides. -/
def extractLoop (cfg : ExtractorConfig) (fps : ℚ) (minIntervalFrames : Nat)
    (skipFrames : Int) : List Frame → LoopSt → List SlideInfo
  | [], _ => []
  | f :: rest, ls =>
    match stepFrame cfg fps minIntervalFrames skipFrames ls f with
    | (ls', none) => extractLoop cfg fps minIntervalFrames skipFrames rest ls'
    | (ls', some sl) => sl :: extractLoop cfg fps minIntervalFrames skipFrames rest ls'

/-- Frame gate of `extract`: `max(int(min_interval_seconds * fps), 1)`. -/
def minIntervalFramesOf (cfg : ExtractorConfig) (fps : ℚ) : Nat :=
  max (pyInt (cfg.minIntervalSeconds * fps)).toNat 1

/-- Skip offset of `extract`: `int(skip_first_seconds * fps)`. -/
def skipFramesOf (cfg : ExtractorConfig) (fps : ℚ) : Int :=
  pyInt (cfg.skipFirstSeconds * fps)

/-- Initial loop variables: `frame_index = 0`,
`last_saved_frame = -min_interval_frames`, fresh comparison state, no slides
yet. -/
def initLoopSt (m : Nat) : LoopSt := ⟨0, -(m : Int), initExtractState, 0⟩

/-- Model of `SlideExtractor.extract`: the ordered list of slides produced
for a video decoded as the frame list `frames` at frame rate `fps`. -/
def extract (cfg : ExtractorConfig) (fps : ℚ) (frames : List Frame) :
    List SlideInfo :=
  extractLoop cfg fps (minIntervalFramesOf cfg fps) (skipFramesOf cfg fps)
    frames (initLoopSt (minIntervalFramesOf cfg fps))

/-! Model of the job-queue coordinator
(`SpeechWeb/backend/app/services/video_ppt_service.py` together with the
`mark_video_ppt_job_*` helpers of `Src/database.py`). -/

/-- Job lifecycle states of the `status` column. -/
inductive JobStatus
  | pending
  | running
  | completed
  | failed
deriving DecidableEq

/-- One row of the `video_ppt_jobs` table, restricted to the fields the
queue logic reads and writes. -/
structure Job where
  jobId : Nat
  url : String
  createdAt : Nat
  status : JobStatus
  errorMessage : Option String
deriving DecidableEq

/-- Database update `mark_video_ppt_job_started`: status `running`, error
message cleared. -/
def markStarted (jobs : List Job) (id : Nat) : List Job :=
  jobs.map fun j =>
    if j.jobId = id then { j with status := .running, errorMessage := none } else j

/-- Database update `mark_video_ppt_job_failed`: status `failed`, error
message recorded. -/
def markFailed (jobs : List Job) (id : Nat) (msg : String) : List Job :=
  jobs.map fun j =>
    if j.jobId = id then { j with status := .failed, errorMessage := some msg } else j

/-- Database update `mark_video_ppt_job_completed` (result-field writes
omitted): status `completed`, error message cleared. -/
def markCompleted (jobs : List Job) (id : Nat) : List Job :=
  jobs.map fun j =>
    if j.jobId = id then { j with status := .completed, errorMessage := none } else j

/-- One row-comparison step of the `ORDER BY created_at ASC LIMIT 1`
selection: keep the pending row with the smaller creation time, the earlier
row on ties. -/
def olderPending (acc : Option Job) (j : Job) : Option Job :=
  if j.status = .pending then
    match acc with
    | none => some j
    | some b => if j.createdAt < b.createdAt then some j else some b
  else acc

/-- SQL query of `_process_next_pending_job`: the single pending row with the
smallest `created_at`.  The job list is kept in row-insertion order, and a
tie on `created_at` resolves to the earlier row. -/
def oldestPending (jobs : List Job) : Option Job :=
  jobs.foldl olderPending none

/-- Result of one queue operation: the updated job table and the job id the
operation dispatched for execution (`none` when nothing is started).
Dispatch is asynchronous in the source (a FastAPI background task or a
daemon thread), so the model records which job the dispatch targets without
recursing into that job's own execution. -/
structure QueueStep where
  jobs : List Job
  dispatched : Option Nat
deriving DecidableEq

/-- Model of `_process_next_pending_job`: picks the oldest pending job and
starts `_run_job_task` for it on a daemon thread; the function itself writes
nothing to the table. -/
def processNextPendingJob (jobs : List Job) : QueueStep :=
  ⟨jobs, (oldestPending jobs).map (·.jobId)⟩

/-- Outcome of one orchestration attempt as seen by `_run_job_task`:
`noPipeline` is the `FileNotFoundError` branch of `get_pipeline` (the job is
marked failed without ever being marked started), `failure` covers the
`VideoToPPTError` and generic exception branches around `pipeline.run`, and
`success` is the normal path. -/
inductive RunOutcome
  | noPipeline (msg : String)
  | failure (msg : String)
  | success
deriving DecidableEq

/-- Model of `_run_job_task` for job `id`: marks the job started, persists
the terminal outcome, and — only on the success path — calls
`_process_next_pending_job`; every failure branch returns without
dispatching. -/
def runJobTask (jobs : List Job) (id : Nat) : RunOutcome → QueueStep
  | .noPipeline msg => ⟨markFailed jobs id msg, none⟩
  | .failure msg => ⟨markFailed (markStarted jobs id) id msg, none⟩
  | .success => processNextPendingJob (markCompleted (markStarted jobs id) id)

/-- Model of `create_job`: rejects a duplicate `job_id` or a duplicate URL,
otherwise inserts the new job as `pending`; when no job is `running` at
insertion time the newly created job itself is dispatched (the source passes
`task_payload` of the new job to `_run_job_task`), otherwise nothing is
dispatched and the job waits in the queue. -/
def createJob (jobs : List Job) (newId : Nat) (url : String) (createdAt : Nat) :
    Except String QueueStep :=
  if jobs.any (fun j => j.jobId = newId) then
    .error "Job ID already exists"
  else if jobs.any (fun j => j.url = url) then
    .error "URL already exists"
  else
    let hasRunningJob := jobs.any (fun j => j.status = .running)
    let jobs' := jobs ++ [⟨newId, url, createdAt, .pending, none⟩]
    if hasRunningJob then .ok ⟨jobs', none⟩ else .ok ⟨jobs', some newId⟩

/-- Model of `process_all_pending_jobs`: a no-op report when nothing is
pending or a job is already running; otherwise one kick of
`_process_next_pending_job`. -/
def processAllPendingJobs (jobs : List Job) : QueueStep :=
  if (jobs.filter (fun j => j.status = .pending)).length = 0 then ⟨jobs, none⟩
  else if jobs.any (fun j => j.status = .running) then ⟨jobs, none⟩
  else processNextPendingJob jobs

/-! Model of `VideoToPPTPipeline.run` (`Src/video_to_ppt/pipeline.py`),
restricted to its file-system effects on the per-job working directory. -/

/-- Files of one job's working directory, grouped by the subdirectory
`run` creates: `download/`, `slides/images/`, `ppt/`. -/
structure JobDirFS where
  downloadDir : List String
  imagesDir : List String
  pptDir : List String
deriving DecidableEq

/-- Model of `VideoToPPTPipeline._cleanup_download`: removes everything under
the download directory and touches nothing else. -/
def cleanupDownload (fs : JobDirFS) : JobDirFS :=
  { fs with downloadDir := [] }

/-- Model of `VideoToPPTPipeline.run`.  Each stage is given by its outcome:
the files it writes into its subdirectory on success (`Except.ok`) or its
error message (`Except.error`); a failing stage aborts the run.  The
`finally` block applies `_cleanup_download` whenever `keep_download_video`
is false, on the success and the failure path alike.  Returns the run's
result (or propagated error) together with the final contents of the
working directory. -/
def pipelineRun (keepDownloadVideo : Bool)
    (dl ex bd : Except String (List String)) :
    Except String Unit × JobDirFS :=
  let fs0 : JobDirFS := ⟨[], [], []⟩
  let body : Except String Unit × JobDirFS :=
    match dl with
    | .error m => (.error m, fs0)
    | .ok dFiles =>
      let fs1 := { fs0 with downloadDir := dFiles }
      match ex with
      | .error m => (.error m, fs1)
      | .ok sFiles =>
        let fs2 := { fs1 with imagesDir := sFiles }
        match bd with
        | .error m => (.error m, fs2)
        | .ok pFiles => (.ok (), { fs2 with pptDir := pFiles })
  (body.1, if keepDownloadVideo then body.2 else cleanupDownload body.2)

/-! Model of `BBDownDownloader` (`Src/video_to_ppt/downloader.py`). -/

/-- One directory entry below the output directory, as `_locate_video_files`
sees it through `Path.rglob`: its path, its `Path.suffix`, its size in bytes
(`stat().st_size`), and whether it is a regular file. -/
structure FileEntry where
  path : String
  suffix : String
  size : Nat
  isFile : Bool
deriving DecidableEq

/-- `BBDownDownloader.VIDEO_EXTENSIONS`. -/
def VIDEO_EXTENSIONS : List String :=
  [".mp4", ".flv", ".mkv", ".avi", ".ts", ".webm", ".mov", ".mpg", ".vclip"]

/-- Python `str.lower()` as `_locate_video_files` applies it to a file
extension (video extensions are plain ASCII). -/
def asciiLower (s : String) : String :=
  String.mk (s.data.map Char.toLower)

/-- Candidate filter of `_locate_video_files`: a regular file whose
case-folded extension is recognized and whose size is non-zero. -/
def isVideoCandidate (f : FileEntry) : Bool :=
  f.isFile && VIDEO_EXTENSIONS.contains (asciiLower f.suffix) && decide (0 < f.size)

/-- Model of `_locate_video_files`: filter to candidates, then stable-sort
by size with the largest first (Python `list.sort` with `reverse=True` is a
stable sort). -/
def locateVideoFiles (files : List FileEntry) : List FileEntry :=
  (files.filter isVideoCandidate).mergeSort (fun a b => decide (b.size ≤ a.size))

/-- Model of `BBDownDownloader.download` after the external process has run:
`returncode` is the process exit code and `files` the resulting contents of
the output directory.  A download error is raised only when no valid video
file is found; otherwise the largest video file becomes the primary result,
even when the exit code is non-zero. -/
def bbdownDownload (files : List FileEntry) (returncode : Int) :
    Except String (FileEntry × List FileEntry) :=
  match locateVideoFiles files with
  | [] =>
    if returncode = 0 then .error "Download finished but no video file was found."
    else .error "BBDown exited with a non-zero code and no video file was found."
  | primary :: rest => .ok (primary, primary :: rest)

/-- State part of the frame loop: the loop variables after processing a
frame list, emitted slides discarded.  Used to split a run at a list
decomposition. -/
def runFrames (cfg : ExtractorConfig) (fps : ℚ) (m : Nat) (skip : Int)
    (ls : LoopSt) (frames : List Frame) : LoopSt :=
  frames.foldl (fun a f => (stepFrame cfg fps m skip a f).1) ls

/-- Fixture scorer for concrete runs: full score on equal feature vectors,
zero otherwise. -/
def simEq : List ℚ → List ℚ → ℚ := fun a b => if a = b then 1 else 0

/-- Fixture configuration: default threshold 0.95, no temporal gating. -/
def cfgEq : ExtractorConfig := ⟨95/100, 0, 0, "jpg", simEq⟩

/-- Fixture configuration with a one-second skip offset. -/
def cfgSkip : ExtractorConfig := ⟨95/100, 0, 1, "jpg", simEq⟩

/-- Fixture frame. -/
def fA : Frame := ⟨0, [0]⟩

/-- Fixture job row in state `running`. -/
def jRun : Job := ⟨1, "url-a", 0, .running, none⟩

/-- Fixture job row in state `pending`, created later than `jRun`. -/
def jPend : Job := ⟨2, "url-b", 1, .pending, none⟩

/-- Fixture job row in state `pending` with the earliest creation time. -/
def jPendOld : Job := ⟨1, "url-a", 0, .pending, none⟩

/-- Fixture: the row of job 1 after a failed run with message `boom`. -/
def jFailedBoom : Job := ⟨1, "url-a", 0, .failed, some "boom"⟩

/-- Fixture frame list: three identical frames. -/
def framesSkip : List Frame := [fA, fA, fA]

/-- Fixture directory listing for the downloader: two valid video files of
different size and case, a non-video file, and an empty video file. -/
def filesFixture : List FileEntry :=
  [⟨"a.mp4", ".mp4", 5, true⟩, ⟨"b.MP4", ".MP4", 9, true⟩,
   ⟨"c.txt", ".txt", 3, true⟩, ⟨"empty.mp4", ".mp4", 0, true⟩]

/-! Shared lemmas about the similarity engine. -/

/-- Update rule of `_is_new_slide`: except for the exact-fingerprint-match
short-circuit, the stored reference becomes the current frame. -/
theorem isNewSlide_state (cfg : ExtractorConfig) (s : ExtractState) (f : Frame) :
    (isNewSlide cfg s f).2.2 =
      if s.lastFrameHash = some f.hash then s else ⟨some f.hash, some f.feat⟩ := by
  unfold isNewSlide
  by_cases h : s.lastFrameHash = some f.hash
  · simp [h]
  · cases hf : s.lastFrameFeatures with
    | none => simp [h, hf]
    | some l =>
      simp only [h, hf, if_false, reduceIte]
      split <;> rfl

/-- Exact-fingerprint-match short-circuit of `_is_new_slide`. -/
theorem isNewSlide_of_hashMatch (cfg : ExtractorConfig) (s : ExtractState)
    (f : Frame) (h : s.lastFrameHash = some f.hash) :
    isNewSlide cfg s f = (false, some 1, s) := by
  simp [isNewSlide, h]

/-- When the decision is novel, the updated reference is the current frame. -/
theorem isNewSlide_state_of_new (cfg : ExtractorConfig) (s : ExtractState)
    (f : Frame) (h : (isNewSlide cfg s f).1 = true) :
    (isNewSlide cfg s f).2.2 = ⟨some f.hash, some f.feat⟩ := by
  rw [isNewSlide_state]
  by_cases hm : s.lastFrameHash = some f.hash
  · rw [isNewSlide_of_hashMatch cfg s f hm] at h
    simp at h
  · simp [hm]

/-- C2 is falsified on the code: after an exact-fingerprint match the stored
feature vector is not updated to the current frame.  The state holds hash 5
with features `[0]`; the inspected frame has the same hash with features
`[1]`; after the call the stored feature vector is still `[0]`. -/
theorem C2_counterexample :
    (isNewSlide cfgEq ⟨some 5, some [(0:ℚ)]⟩ ⟨5, [(1:ℚ)]⟩).2.2.lastFrameFeatures ≠
      some [(1:ℚ)] := by
  simp [isNewSlide, cfgEq]

/-- C2 amended: the stored previous-frame reference (fingerprint and feature
vector) is updated to the current frame in every case except the
exact-fingerprint-match short-circuit, which returns with the stored
reference unchanged — there the stored fingerprint already equals the
current one, but the stored feature vector remains that of the earlier
frame. -/
theorem C2_reference_update (cfg : ExtractorConfig) (s : ExtractState) (f : Frame) :
    (isNewSlide cfg s f).2.2 =
      if s.lastFrameHash = some f.hash then s else ⟨some f.hash, some f.feat⟩ :=
  isNewSlide_state cfg s f

/-- C6: with the configured threshold in its documented range (at most 1)
and a consistently initialized comparison state, the first frame ever
inspected is judged novel with similarity reported as `none`, and every
later inspected frame is judged novel exactly when its reported similarity
score is strictly less than the threshold. -/
theorem C6_novelty_decision (cfg : ExtractorConfig) (s : ExtractState) (f : Frame)
    (hthr : cfg.similarityThreshold ≤ 1)
    (hinv : s.lastFrameHash = none ↔ s.lastFrameFeatures = none) :
    (s.lastFrameFeatures = none →
      (isNewSlide cfg s f).1 = true ∧ (isNewSlide cfg s f).2.1 = none) ∧
    (s.lastFrameFeatures ≠ none →
      ∃ q, (isNewSlide cfg s f).2.1 = some q ∧
        ((isNewSlide cfg s f).1 = true ↔ q < cfg.similarityThreshold)) := by
  constructor
  · intro hnone
    have hh : s.lastFrameHash = none := hinv.mpr hnone
    simp [isNewSlide, hh, hnone]
  · intro hsome
    obtain ⟨l, hl⟩ := Option.ne_none_iff_exists'.mp hsome
    by_cases hm : s.lastFrameHash = some f.hash
    · rw [isNewSlide_of_hashMatch cfg s f hm]
      exact ⟨1, rfl, by simp [not_lt.mpr hthr]⟩
    · refine ⟨cfg.sim l f.feat, ?_⟩
      by_cases ht : cfg.similarityThreshold ≤ cfg.sim l f.feat
      · simp [isNewSlide, hm, hl, ht, not_lt.mpr ht]
      · simp [isNewSlide, hm, hl, ht, lt_of_not_le ht]

/-- Witness for C6 at a concrete input: fresh state, first frame. -/
theorem C6_novelty_decision_witness :
    (isNewSlide cfgEq initExtractState fA).1 = true ∧
    (isNewSlide cfgEq initExtractState fA).2.1 = none :=
  (C6_novelty_decision cfgEq initExtractState fA (by norm_num [cfgEq])
    (by simp [initExtractState])).1 (by simp [initExtractState])

/-! Shared lemmas about the extraction loop. -/

/-- Every loop iteration advances `frame_index` by exactly one. -/
theorem stepFrame_frameIndex (cfg : ExtractorConfig) (fps : ℚ) (m : Nat)
    (skip : Int) (ls : LoopSt) (f : Frame) :
    ((stepFrame cfg fps m skip ls f).1).frameIndex = ls.frameIndex + 1 := by
  simp only [stepFrame]
  split
  · rfl
  split
  · rfl
  split <;> rfl

/-- An iteration that saves no slide leaves `last_saved_frame` and the slide
count unchanged. -/
theorem stepFrame_noSave (cfg : ExtractorConfig) (fps : ℚ) (m : Nat)
    (skip : Int) (ls : LoopSt) (f : Frame)
    (h : (stepFrame cfg fps m skip ls f).2 = none) :
    ((stepFrame cfg fps m skip ls f).1).lastSavedFrame = ls.lastSavedFrame ∧
    ((stepFrame cfg fps m skip ls f).1).slideCount = ls.slideCount := by
  revert h
  simp only [stepFrame]
  split
  · exact fun _ => ⟨rfl, rfl⟩
  split
  · exact fun _ => ⟨rfl, rfl⟩
  split
  · exact fun _ => ⟨rfl, rfl⟩
  · intro h; simp at h

/-- Characterization of an iteration that saves a slide: both gates passed,
the novelty decision was positive, and the saved record and updated loop
variables are determined by the pre-state. -/
theorem stepFrame_save (cfg : ExtractorConfig) (fps : ℚ) (m : Nat)
    (skip : Int) (ls : LoopSt) (f : Frame) (sl : SlideInfo)
    (h : (stepFrame cfg fps m skip ls f).2 = some sl) :
    skip ≤ (ls.frameIndex : Int) ∧
    ls.lastSavedFrame + (m : Int) ≤ (ls.frameIndex : Int) ∧
    (isNewSlide cfg ls.st f).1 = true ∧
    sl.frameIndex = ls.frameIndex ∧
    sl.index = ls.slideCount + 1 ∧
    sl.filename = slideFilename (ls.slideCount + 1) cfg.imageFormat ∧
    sl.timestampSeconds = (if 0 < fps then (ls.frameIndex : ℚ) / fps else 0) ∧
    (stepFrame cfg fps m skip ls f).1 =
      ⟨ls.frameIndex + 1, (ls.frameIndex : Int),
        ⟨some f.hash, some f.feat⟩, ls.slideCount + 1⟩ := by
  revert h
  simp only [stepFrame]
  split
  · intro h; simp at h
  · rename_i h1
    split
    · intro h; simp at h
    · rename_i h2
      split
      · intro h; simp at h
      · rename_i similarity s' heq
        intro h
        rw [Option.some.injEq] at h
        subst h
        have hnew : (isNewSlide cfg ls.st f).1 = true := by rw [heq]
        have hstate := isNewSlide_state_of_new cfg ls.st f hnew
        rw [heq] at hstate
        refine ⟨by omega, by omega, hnew, rfl, rfl, rfl, rfl, ?_⟩
        simp only at hstate
        rw [hstate]

/-- An iteration whose frame fingerprints identically to the stored
reference never saves a slide. -/
theorem stepFrame_none_of_hashMatch (cfg : ExtractorConfig) (fps : ℚ) (m : Nat)
    (skip : Int) (ls : LoopSt) (f : Frame)
    (h : ls.st.lastFrameHash = some f.hash) :
    (stepFrame cfg fps m skip ls f).2 = none := by
  simp only [stepFrame]
  split
  · rfl
  split
  · rfl
  rw [isNewSlide_of_hashMatch cfg ls.st f h]

/-- Every slide a loop run emits lies in the frame-index window of that run,
respects the skip offset and the interval gate relative to the entry state,
and carries the timestamp of its source frame. -/
theorem extractLoop_mem_spec (cfg : ExtractorConfig) (fps : ℚ) (m : Nat) (skip : Int) :
    ∀ (frames : List Frame) (ls : LoopSt) (sl : SlideInfo),
      sl ∈ extractLoop cfg fps m skip frames ls →
      ls.frameIndex ≤ sl.frameIndex ∧
      sl.frameIndex < ls.frameIndex + frames.length ∧
      skip ≤ (sl.frameIndex : Int) ∧
      ls.lastSavedFrame + (m : Int) ≤ (sl.frameIndex : Int) ∧
      (0 < fps → sl.timestampSeconds = (sl.frameIndex : ℚ) / fps) := by
  intro frames
  induction frames with
  | nil => intro ls sl h; simp [extractLoop] at h
  | cons f rest ih =>
    intro ls sl h
    rw [extractLoop] at h
    rcases hst : stepFrame cfg fps m skip ls f with ⟨ls', osl⟩
    rw [hst] at h
    have hfi : ls'.frameIndex = ls.frameIndex + 1 := by
      have hx := stepFrame_frameIndex cfg fps m skip ls f
      rw [hst] at hx
      exact hx
    cases osl with
    | none =>
      have h' : sl ∈ extractLoop cfg fps m skip rest ls' := h
      have hns := stepFrame_noSave cfg fps m skip ls f (by rw [hst])
      rw [hst] at hns
      obtain ⟨hlast, _⟩ := hns
      obtain ⟨ih1, ih2, ih3, ih4, ih5⟩ := ih ls' sl h'
      simp only at hlast
      refine ⟨by omega, ?_, ih3, by rw [hlast] at ih4; exact ih4, ih5⟩
      simp only [List.length_cons]
      omega
    | some s =>
      have h' : sl ∈ s :: extractLoop cfg fps m skip rest ls' := h
      have hsv := stepFrame_save cfg fps m skip ls f s (by rw [hst])
      rw [hst] at hsv
      obtain ⟨hskip, hgate, hnew0, hfiS, hidx, hfn, hts, hls'⟩ := hsv
      simp only at hls'
      rcases List.mem_cons.mp h' with rfl | hmem
      · refine ⟨by omega, ?_, by omega, by omega, ?_⟩
        · simp only [List.length_cons]; omega
        · intro hfps
          rw [hts, if_pos hfps, hfiS]
      · obtain ⟨ih1, ih2, ih3, ih4, ih5⟩ := ih ls' sl hmem
        have e1 : ls'.lastSavedFrame = (ls.frameIndex : Int) := by rw [hls']
        rw [e1] at ih4
        refine ⟨by omega, ?_, ih3, by omega, ih5⟩
        simp only [List.length_cons]
        omega

/-- Consecutive saved slides are at least the interval gate apart in source
frame index. -/
theorem extractLoop_pairwise_gap (cfg : ExtractorConfig) (fps : ℚ) (m : Nat) (skip : Int) :
    ∀ (frames : List Frame) (ls : LoopSt),
      (extractLoop cfg fps m skip frames ls).Pairwise
        (fun a b => a.frameIndex + m ≤ b.frameIndex) := by
  intro frames
  induction frames with
  | nil => intro ls; simp [extractLoop]
  | cons f rest ih =>
    intro ls
    rw [extractLoop]
    rcases hst : stepFrame cfg fps m skip ls f with ⟨ls', osl⟩
    cases osl with
    | none => exact ih ls'
    | some s =>
      refine List.Pairwise.cons ?_ (ih ls')
      intro b hb
      have hsv := stepFrame_save cfg fps m skip ls f s (by rw [hst])
      rw [hst] at hsv
      obtain ⟨_, _, _, hfiS, _, _, _, hls'⟩ := hsv
      simp only at hls'
      have e1 : ls'.lastSavedFrame = (ls.frameIndex : Int) := by rw [hls']
      have hmem := extractLoop_mem_spec cfg fps m skip rest ls' b hb
      obtain ⟨_, _, _, h4, _⟩ := hmem
      rw [e1] at h4
      omega

/-- Position-to-index correspondence: the slide stored at 0-based position
`k` carries 1-based index `slideCount + k + 1` and the file name derived
from it. -/
theorem extractLoop_numbering (cfg : ExtractorConfig) (fps : ℚ) (m : Nat) (skip : Int) :
    ∀ (frames : List Frame) (ls : LoopSt) (k : Nat) (sl : SlideInfo),
      (extractLoop cfg fps m skip frames ls)[k]? = some sl →
      sl.index = ls.slideCount + k + 1 ∧
      sl.filename = slideFilename (ls.slideCount + k + 1) cfg.imageFormat := by
  intro frames
  induction frames with
  | nil => intro ls k sl h; simp [extractLoop] at h
  | cons f rest ih =>
    intro ls k sl h
    rw [extractLoop] at h
    rcases hst : stepFrame cfg fps m skip ls f with ⟨ls', osl⟩
    rw [hst] at h
    cases osl with
    | none =>
      have h' : (extractLoop cfg fps m skip rest ls')[k]? = some sl := h
      have hns := stepFrame_noSave cfg fps m skip ls f (by rw [hst])
      rw [hst] at hns
      obtain ⟨_, hcount⟩ := hns
      simp only at hcount
      rw [← hcount]
      exact ih ls' k sl h'
    | some s =>
      have hsv := stepFrame_save cfg fps m skip ls f s (by rw [hst])
      rw [hst] at hsv
      obtain ⟨_, _, _, _, hidx, hfn, _, hls'⟩ := hsv
      simp only at hls'
      cases k with
      | zero =>
        have h' : (s :: extractLoop cfg fps m skip rest ls')[0]? = some sl := h
        rw [List.getElem?_cons_zero, Option.some.injEq] at h'
        subst h'
        exact ⟨hidx, hfn⟩
      | succ k =>
        have h' : (s :: extractLoop cfg fps m skip rest ls')[k + 1]? = some sl := h
        rw [List.getElem?_cons_succ] at h'
        have hrec := ih ls' k sl h'
        have ec : ls'.slideCount = ls.slideCount + 1 := by rw [hls']
        rw [ec] at hrec
        have harith : ls.slideCount + 1 + k + 1 = ls.slideCount + (k + 1) + 1 := by omega
        rw [harith] at hrec
        exact hrec

/-- Splitting a loop run at a list decomposition. -/
theorem extractLoop_append (cfg : ExtractorConfig) (fps : ℚ) (m : Nat) (skip : Int) :
    ∀ (xs ys : List Frame) (ls : LoopSt),
      extractLoop cfg fps m skip (xs ++ ys) ls =
        extractLoop cfg fps m skip xs ls ++
          extractLoop cfg fps m skip ys (runFrames cfg fps m skip ls xs) := by
  intro xs
  induction xs with
  | nil => intro ys ls; simp [extractLoop, runFrames]
  | cons x xs ih =>
    intro ys ls
    rcases hst : stepFrame cfg fps m skip ls x with ⟨ls', osl⟩
    have hrun : runFrames cfg fps m skip ls (x :: xs) = runFrames cfg fps m skip ls' xs := by
      simp only [runFrames, List.foldl_cons, hst]
    cases osl with
    | none =>
      rw [List.cons_append, extractLoop, hst, hrun]
      conv_rhs => rw [extractLoop, hst]
      exact ih ys ls'
    | some s =>
      rw [List.cons_append, extractLoop, hst, hrun]
      conv_rhs => rw [extractLoop, hst]
      show s :: extractLoop cfg fps m skip (xs ++ ys) ls' =
        (s :: extractLoop cfg fps m skip xs ls') ++
          extractLoop cfg fps m skip ys (runFrames cfg fps m skip ls' xs)
      rw [List.cons_append, ih ys ls']

/-- The loop-state fold advances `frame_index` by the number of frames
processed. -/
theorem runFrames_frameIndex (cfg : ExtractorConfig) (fps : ℚ) (m : Nat) (skip : Int) :
    ∀ (xs : List Frame) (ls : LoopSt),
      (runFrames cfg fps m skip ls xs).frameIndex = ls.frameIndex + xs.length := by
  intro xs
  induction xs with
  | nil => intro ls; simp [runFrames]
  | cons x xs ih =>
    intro ls
    have : runFrames cfg fps m skip ls (x :: xs) =
        runFrames cfg fps m skip ((stepFrame cfg fps m skip ls x).1) xs := by
      simp [runFrames]
    rw [this, ih, stepFrame_frameIndex]
    simp only [List.length_cons]
    omega

/-- When the loop meets two identical adjacent frames, it never saves both:
if the first one is saved, the second is dropped either by the interval gate
or by the exact-fingerprint-match short-circuit. -/
theorem extractLoop_adjacent_duplicate (cfg : ExtractorConfig) (fps : ℚ) (m : Nat)
    (skip : Int) (ls : LoopSt) (g : Frame) (rest : List Frame) :
    ¬ (ls.frameIndex ∈ (extractLoop cfg fps m skip (g :: g :: rest) ls).map (·.frameIndex) ∧
       ls.frameIndex + 1 ∈ (extractLoop cfg fps m skip (g :: g :: rest) ls).map (·.frameIndex)) := by
  rintro ⟨h1, h2⟩
  rw [extractLoop] at h1 h2
  rcases hst : stepFrame cfg fps m skip ls g with ⟨ls', osl⟩
  rw [hst] at h1 h2
  have hfi : ls'.frameIndex = ls.frameIndex + 1 := by
    have hx := stepFrame_frameIndex cfg fps m skip ls g
    rw [hst] at hx
    exact hx
  cases osl with
  | none =>
    have h1' : ls.frameIndex ∈ (extractLoop cfg fps m skip (g :: rest) ls').map (·.frameIndex) := h1
    obtain ⟨b, hb, hbe⟩ := List.mem_map.mp h1'
    have := (extractLoop_mem_spec cfg fps m skip (g :: rest) ls' b hb).1
    omega
  | some s =>
    have hsv := stepFrame_save cfg fps m skip ls g s (by rw [hst])
    rw [hst] at hsv
    obtain ⟨hskip, _, hnew0, hfiS, _, _, _, hls'⟩ := hsv
    simp only at hls'
    have h2' : ls.frameIndex + 1 ∈
        (s :: extractLoop cfg fps m skip (g :: rest) ls').map (·.frameIndex) := h2
    rw [List.map_cons] at h2'
    rcases List.mem_cons.mp h2' with he | hmem
    · omega
    · -- the second identical frame saves nothing
      have hstate : ls'.st.lastFrameHash = some g.hash := by rw [hls']
      rw [extractLoop] at hmem
      rcases hst2 : stepFrame cfg fps m skip ls' g with ⟨ls'', osl2⟩
      rw [hst2] at hmem
      have hfi2 : ls''.frameIndex = ls.frameIndex + 2 := by
        have hx := stepFrame_frameIndex cfg fps m skip ls' g
        rw [hst2] at hx
        simp only at hx
        omega
      have hnone : osl2 = none := by
        have hx := stepFrame_none_of_hashMatch cfg fps m skip ls' g hstate
        rw [hst2] at hx
        exact hx
      subst hnone
      have hmem' : ls.frameIndex + 1 ∈
          (extractLoop cfg fps m skip rest ls'').map (·.frameIndex) := hmem
      obtain ⟨b, hb, hbe⟩ := List.mem_map.mp hmem'
      have := (extractLoop_mem_spec cfg fps m skip rest ls'' b hb).1
      omega

/-- C7 (confirmed): the minimum-interval gate equals
`max(int(min_interval_seconds * fps), 1)` — in particular it is at least one
frame — and the source-frame indices of any two retained slides, in
retention order, differ by at least the gate. -/
theorem C7_min_interval_gate (cfg : ExtractorConfig) (fps : ℚ) (frames : List Frame) :
    minIntervalFramesOf cfg fps = max (pyInt (cfg.minIntervalSeconds * fps)).toNat 1 ∧
    1 ≤ minIntervalFramesOf cfg fps ∧
    (extract cfg fps frames).Pairwise
      (fun a b => a.frameIndex + minIntervalFramesOf cfg fps ≤ b.frameIndex) :=
  ⟨rfl, le_max_right _ _, extractLoop_pairwise_gap cfg fps _ _ frames _⟩

/-- Concrete evaluation: `skip_first_seconds = 1` at `fps = 5/2` truncates
to a 2-frame offset, so the first retained slide is frame 2 with timestamp
`2 / (5/2) = 4/5`. -/
theorem extract_cfgSkip_eval :
    extract cfgSkip (5/2) framesSkip =
      [⟨1, slideFilename 1 "jpg", 2, 4/5, none⟩] := by
  have hm : minIntervalFramesOf cfgSkip (5/2) = 1 := by
    norm_num [minIntervalFramesOf, pyInt, cfgSkip]
  have hs : skipFramesOf cfgSkip (5/2) = 2 := by
    norm_num [skipFramesOf, pyInt, cfgSkip]
  rw [extract, hm, hs]
  simp [extractLoop, stepFrame, isNewSlide, initLoopSt, initExtractState,
    framesSkip, fA, cfgSkip, simEq]
  norm_num

/-- C3 is falsified on the code: with `skip_first_seconds = 1` and
`fps = 5/2` the offset `int(1 * 5/2) = 2` truncates downward, and the first
retained slide has `timestamp_seconds = 4/5 < 1`. -/
theorem C3_counterexample :
    ¬ (∀ sl ∈ extract cfgSkip (5/2) framesSkip,
        cfgSkip.skipFirstSeconds ≤ sl.timestampSeconds) := by
  intro hall
  have := hall ⟨1, slideFilename 1 "jpg", 2, 4/5, none⟩
    (by rw [extract_cfgSkip_eval]; exact List.mem_singleton.mpr rfl)
  norm_num [cfgSkip] at this

/-- C3 amended: every retained slide's source-frame index is at least the
truncated offset `int(skip_first_seconds * fps)`, hence its timestamp is at
least `⌊skip_first_seconds * fps⌋ / fps` — which can undershoot
`skip_first_seconds` itself by strictly less than one frame duration. -/
theorem C3_skip_offset (cfg : ExtractorConfig) (fps : ℚ) (frames : List Frame)
    (hS : 0 ≤ cfg.skipFirstSeconds) (hfps : 0 < fps) :
    ∀ sl ∈ extract cfg fps frames,
      (⌊cfg.skipFirstSeconds * fps⌋ : ℚ) / fps ≤ sl.timestampSeconds ∧
      cfg.skipFirstSeconds - 1 / fps < sl.timestampSeconds := by
  intro sl hmem
  rw [extract] at hmem
  obtain ⟨_, _, h3, _, h5⟩ :=
    extractLoop_mem_spec cfg fps (minIntervalFramesOf cfg fps)
      (skipFramesOf cfg fps) frames (initLoopSt (minIntervalFramesOf cfg fps)) sl hmem
  have hsf : skipFramesOf cfg fps = ⌊cfg.skipFirstSeconds * fps⌋ := by
    rw [skipFramesOf, pyInt, if_pos (mul_nonneg hS hfps.le)]
  rw [hsf] at h3
  have hts := h5 hfps
  have hle : ((⌊cfg.skipFirstSeconds * fps⌋ : ℤ) : ℚ) ≤ (sl.frameIndex : ℚ) := by
    exact_mod_cast h3
  have hfirst : (⌊cfg.skipFirstSeconds * fps⌋ : ℚ) / fps ≤ sl.timestampSeconds := by
    rw [hts]
    exact div_le_div_of_nonneg_right hle hfps.le
  refine ⟨hfirst, lt_of_lt_of_le ?_ hfirst⟩
  have hfloor : cfg.skipFirstSeconds * fps - 1 < (⌊cfg.skipFirstSeconds * fps⌋ : ℚ) :=
    Int.sub_one_lt_floor _
  have h1 : (cfg.skipFirstSeconds * fps - 1) / fps <
      (⌊cfg.skipFirstSeconds * fps⌋ : ℚ) / fps := by
    exact div_lt_div_of_pos_right hfloor hfps
  have h2 : (cfg.skipFirstSeconds * fps - 1) / fps =
      cfg.skipFirstSeconds - 1 / fps := by
    rw [sub_div, mul_div_cancel_right₀ _ hfps.ne']
  rw [← h2]
  exact h1

/-- Witness for C3's amended bounds at the concrete truncating run. -/
theorem C3_skip_offset_witness :
    (⌊cfgSkip.skipFirstSeconds * (5/2 : ℚ)⌋ : ℚ) / (5/2 : ℚ) ≤ (4/5 : ℚ) ∧
    cfgSkip.skipFirstSeconds - 1 / (5/2 : ℚ) < (4/5 : ℚ) := by
  have h := C3_skip_offset cfgSkip (5/2) framesSkip
    (by norm_num [cfgSkip]) (by norm_num)
    ⟨1, slideFilename 1 "jpg", 2, 4/5, none⟩
    (by rw [extract_cfgSkip_eval]; exact List.mem_singleton.mpr rfl)
  simpa using h

/-- C9 (confirmed): the slide at 0-based position `k` carries 1-based index
`k + 1` and the file name `slide_{k+1:04d}.{format}`, and at a positive
frame rate both the source-frame indices and the timestamps increase
strictly along the result list. -/
theorem C9_slide_numbering (cfg : ExtractorConfig) (fps : ℚ) (frames : List Frame)
    (hfps : 0 < fps) :
    (∀ k sl, (extract cfg fps frames)[k]? = some sl →
      sl.index = k + 1 ∧ sl.filename = slideFilename (k + 1) cfg.imageFormat) ∧
    (extract cfg fps frames).Pairwise
      (fun a b => a.frameIndex < b.frameIndex ∧
        a.timestampSeconds < b.timestampSeconds) := by
  constructor
  · intro k sl h
    rw [extract] at h
    have hnum := extractLoop_numbering cfg fps (minIntervalFramesOf cfg fps)
      (skipFramesOf cfg fps) frames (initLoopSt (minIntervalFramesOf cfg fps)) k sl h
    simpa [initLoopSt] using hnum
  · rw [extract]
    have hp := extractLoop_pairwise_gap cfg fps (minIntervalFramesOf cfg fps)
      (skipFramesOf cfg fps) frames (initLoopSt (minIntervalFramesOf cfg fps))
    refine hp.imp_of_mem ?_
    intro a b ha hb hgap
    have hts_a := (extractLoop_mem_spec cfg fps (minIntervalFramesOf cfg fps)
      (skipFramesOf cfg fps) frames (initLoopSt (minIntervalFramesOf cfg fps)) a ha).2.2.2.2 hfps
    have hts_b := (extractLoop_mem_spec cfg fps (minIntervalFramesOf cfg fps)
      (skipFramesOf cfg fps) frames (initLoopSt (minIntervalFramesOf cfg fps)) b hb).2.2.2.2 hfps
    have hm1 : 1 ≤ minIntervalFramesOf cfg fps := le_max_right _ _
    have hlt : a.frameIndex < b.frameIndex := by omega
    refine ⟨hlt, ?_⟩
    rw [hts_a, hts_b]
    have hq : (a.frameIndex : ℚ) < (b.frameIndex : ℚ) := by exact_mod_cast hlt
    exact div_lt_div_of_pos_right hq hfps

/-- Witness for C9 on a two-slide run. -/
theorem C9_slide_numbering_witness :
    (extract cfgEq 1 [⟨0, [0]⟩, ⟨1, [1]⟩]).Pairwise
      (fun a b => a.frameIndex < b.frameIndex ∧
        a.timestampSeconds < b.timestampSeconds) :=
  (C9_slide_numbering cfgEq 1 [⟨0, [0]⟩, ⟨1, [1]⟩] (by norm_num)).2

/-- C8 (confirmed): a frame whose fingerprint equals the stored one is
judged not-new with similarity reported as exactly 1, independently of the
similarity scorer — which is therefore never consulted — and no extraction
run retains two bit-identical adjacent frames as two separate slides. -/
theorem C8_exact_match (cfg : ExtractorConfig) (s : ExtractState) (f : Frame)
    (simAlt : List ℚ → List ℚ → ℚ) (hmatch : s.lastFrameHash = some f.hash)
    (fps : ℚ) (pre rest : List Frame) (g : Frame) :
    isNewSlide { cfg with sim := simAlt } s f = (false, some 1, s) ∧
    ¬ (pre.length ∈ (extract cfg fps (pre ++ g :: g :: rest)).map (·.frameIndex) ∧
       pre.length + 1 ∈ (extract cfg fps (pre ++ g :: g :: rest)).map (·.frameIndex)) := by
  refine ⟨isNewSlide_of_hashMatch _ s f hmatch, ?_⟩
  rintro ⟨h1, h2⟩
  rw [extract, extractLoop_append, List.map_append] at h1 h2
  have hfi1 : (runFrames cfg fps (minIntervalFramesOf cfg fps) (skipFramesOf cfg fps)
      (initLoopSt (minIntervalFramesOf cfg fps)) pre).frameIndex = pre.length := by
    rw [runFrames_frameIndex]
    simp [initLoopSt]
  have hpre : ∀ n, n ∈ (extractLoop cfg fps (minIntervalFramesOf cfg fps)
      (skipFramesOf cfg fps) pre (initLoopSt (minIntervalFramesOf cfg fps))).map
        (·.frameIndex) → n < pre.length := by
    intro n hn
    obtain ⟨b, hb, hbe⟩ := List.mem_map.mp hn
    have hr := (extractLoop_mem_spec cfg fps (minIntervalFramesOf cfg fps)
      (skipFramesOf cfg fps) pre (initLoopSt (minIntervalFramesOf cfg fps)) b hb).2.1
    simp only [initLoopSt] at hr
    omega
  have hadj := extractLoop_adjacent_duplicate cfg fps (minIntervalFramesOf cfg fps)
    (skipFramesOf cfg fps)
    (runFrames cfg fps (minIntervalFramesOf cfg fps) (skipFramesOf cfg fps)
      (initLoopSt (minIntervalFramesOf cfg fps)) pre) g rest
  rw [hfi1] at hadj
  rcases List.mem_append.mp h1 with hx | hx
  · exact absurd (hpre _ hx) (by omega)
  rcases List.mem_append.mp h2 with hy | hy
  · exact absurd (hpre _ hy) (by omega)
  exact hadj ⟨hx, hy⟩

/-- Witness for C8 at a concrete state and frame pair. -/
theorem C8_exact_match_witness :
    isNewSlide { cfgEq with sim := simEq } ⟨some 0, some [(0:ℚ)]⟩ fA =
      (false, some 1, ⟨some 0, some [(0:ℚ)]⟩) ∧
    ¬ (([] : List Frame).length ∈
        (extract cfgEq 1 ([] ++ fA :: fA :: [])).map (·.frameIndex) ∧
       ([] : List Frame).length + 1 ∈
        (extract cfgEq 1 ([] ++ fA :: fA :: [])).map (·.frameIndex)) :=
  C8_exact_match cfgEq ⟨some 0, some [(0:ℚ)]⟩ fA simEq rfl 1 [] [] fA

/-! Shared lemmas about the queue coordinator. -/

/-- Unfolding `olderPending` on a pending row and an empty accumulator. -/
theorem olderPending_none (x : Job) (hx : x.status = .pending) :
    olderPending none x = some x := by
  simp [olderPending, hx]

/-- Unfolding `olderPending` on a pending row and a kept candidate. -/
theorem olderPending_some (x b : Job) (hx : x.status = .pending) :
    olderPending (some b) x =
      if x.createdAt < b.createdAt then some x else some b := by
  simp [olderPending, hx]

/-- Unfolding `olderPending` on a non-pending row. -/
theorem olderPending_skip (acc : Option Job) (x : Job)
    (hx : ¬ x.status = .pending) :
    olderPending acc x = acc := by
  simp [olderPending, hx]

/-- Fold invariant behind `oldestPending`: a `some` result is a pending
entry of the traversed list or the accumulator, and its creation time is
minimal among both. -/
theorem oldestPending_fold (jobs : List Job) : ∀ (acc : Option Job) (j : Job),
    jobs.foldl olderPending acc = some j →
    ((j ∈ jobs ∧ j.status = .pending) ∨ acc = some j) ∧
    (∀ b ∈ jobs, b.status = .pending → j.createdAt ≤ b.createdAt) ∧
    (∀ a, acc = some a → j.createdAt ≤ a.createdAt) := by
  induction jobs with
  | nil =>
    intro acc j h
    simp only [List.foldl_nil] at h
    refine ⟨Or.inr h, by simp, ?_⟩
    intro a ha
    rw [h] at ha
    injection ha with ha2
    subst ha2
    exact le_refl _
  | cons x xs ih =>
    intro acc j h
    simp only [List.foldl_cons] at h
    by_cases hx : x.status = .pending
    · cases acc with
      | none =>
        rw [olderPending_none x hx] at h
        obtain ⟨h1, h2, h3⟩ := ih (some x) j h
        refine ⟨?_, ?_, by simp⟩
        · rcases h1 with ⟨hm, hp⟩ | he
          · exact Or.inl ⟨List.mem_cons_of_mem _ hm, hp⟩
          · injection he with he2
            subst he2
            exact Or.inl ⟨List.mem_cons_self _ _, hx⟩
        · intro b hb hbp
          rcases List.mem_cons.mp hb with rfl | hbm
          · exact h3 b rfl
          · exact h2 b hbm hbp
      | some b0 =>
        rw [olderPending_some x b0 hx] at h
        by_cases hlt : x.createdAt < b0.createdAt
        · rw [if_pos hlt] at h
          obtain ⟨h1, h2, h3⟩ := ih (some x) j h
          have hjx : j.createdAt ≤ x.createdAt := h3 x rfl
          refine ⟨?_, ?_, ?_⟩
          · rcases h1 with ⟨hm, hp⟩ | he
            · exact Or.inl ⟨List.mem_cons_of_mem _ hm, hp⟩
            · injection he with he2
              subst he2
              exact Or.inl ⟨List.mem_cons_self _ _, hx⟩
          · intro b hb hbp
            rcases List.mem_cons.mp hb with rfl | hbm
            · exact hjx
            · exact h2 b hbm hbp
          · intro a ha
            injection ha with ha2
            subst ha2
            omega
        · rw [if_neg hlt] at h
          obtain ⟨h1, h2, h3⟩ := ih (some b0) j h
          have hjb : j.createdAt ≤ b0.createdAt := h3 b0 rfl
          refine ⟨?_, ?_, ?_⟩
          · rcases h1 with ⟨hm, hp⟩ | he
            · exact Or.inl ⟨List.mem_cons_of_mem _ hm, hp⟩
            · exact Or.inr he
          · intro b hb hbp
            rcases List.mem_cons.mp hb with rfl | hbm
            · omega
            · exact h2 b hbm hbp
          · intro a ha
            injection ha with ha2
            subst ha2
            exact hjb
    · rw [olderPending_skip acc x hx] at h
      obtain ⟨h1, h2, h3⟩ := ih acc j h
      refine ⟨?_, ?_, h3⟩
      · rcases h1 with ⟨hm, hp⟩ | he
        · exact Or.inl ⟨List.mem_cons_of_mem _ hm, hp⟩
        · exact Or.inr he
      · intro b hb hbp
        rcases List.mem_cons.mp hb with rfl | hbm
        · exact absurd hbp hx
        · exact h2 b hbm hbp

/-- `oldestPending` returns a pending row whose creation time is minimal
among all pending rows. -/
theorem oldestPending_spec (jobs : List Job) :
    ∀ j, oldestPending jobs = some j →
      j ∈ jobs ∧ j.status = .pending ∧
      ∀ b ∈ jobs, b.status = .pending → j.createdAt ≤ b.createdAt := by
  intro j h
  obtain ⟨h1, h2, _⟩ := oldestPending_fold jobs none j h
  rcases h1 with ⟨hm, hp⟩ | he
  · exact ⟨hm, hp, h2⟩
  · cases he

/-- C1 is falsified on the code: after a failed run the terminal outcome is
persisted, but no dispatch happens even though a pending job is waiting in
the queue. -/
theorem C1_counterexample :
    (runJobTask [jRun, jPend] 1 (.failure "boom")).dispatched = none ∧
    (oldestPending (runJobTask [jRun, jPend] 1 (.failure "boom")).jobs).map
      (·.jobId) = some 2 := by
  constructor <;> rfl

/-- C1 amended: on success the completed outcome is persisted and then the
oldest pending job is dispatched; on failure the failed status and the
error message are persisted but nothing is dispatched, so a failure stalls
the queue until an external kick or a new enqueue. -/
theorem C1_terminal_handling (jobs : List Job) (id : Nat) (msg : String) :
    ((runJobTask jobs id .success).jobs = markCompleted (markStarted jobs id) id ∧
     (runJobTask jobs id .success).dispatched =
       (oldestPending (markCompleted (markStarted jobs id) id)).map (·.jobId)) ∧
    ((runJobTask jobs id (.failure msg)).jobs =
       markFailed (markStarted jobs id) id msg ∧
     (runJobTask jobs id (.failure msg)).dispatched = none ∧
     ∀ j ∈ (runJobTask jobs id (.failure msg)).jobs,
       j.jobId = id → j.status = .failed ∧ j.errorMessage = some msg) := by
  refine ⟨⟨rfl, rfl⟩, rfl, rfl, ?_⟩
  intro j hj hid
  simp only [runJobTask, markFailed] at hj
  obtain ⟨a, ha, rfl⟩ := List.mem_map.mp hj
  by_cases hb : a.jobId = id
  · rw [if_pos hb]
    exact ⟨rfl, rfl⟩
  · rw [if_neg hb] at hid ⊢
    exact absurd hid hb

/-- Witness for C1's amended failure bookkeeping at a concrete queue. -/
theorem C1_terminal_handling_witness :
    jFailedBoom.status = .failed ∧ jFailedBoom.errorMessage = some "boom" :=
  (C1_terminal_handling [jRun, jPend] 1 "boom").2.2.2 jFailedBoom (by decide) rfl

/-- C4 is falsified on the code: with an older job pending and nothing
running, enqueueing a new job dispatches the new job itself, not the oldest
pending one. -/
theorem C4_counterexample :
    createJob [jPendOld] 2 "url-b" 5 =
      .ok ⟨[jPendOld, ⟨2, "url-b", 5, .pending, none⟩], some 2⟩ ∧
    (oldestPending [jPendOld, ⟨2, "url-b", 5, .pending, none⟩]).map (·.jobId) =
      some 1 := by
  constructor <;> rfl

/-- C4 amended: dispatches that go through `_process_next_pending_job`
(after a successful run, or on a queue kick) start the oldest pending job by
creation time; but an enqueue that finds no running job dispatches the newly
created job itself, even when an older-created pending job exists. -/
theorem C4_dispatch_selection (jobs : List Job) (id newId createdAt : Nat)
    (url : String) :
    (runJobTask jobs id .success).dispatched =
      (oldestPending (markCompleted (markStarted jobs id) id)).map (·.jobId) ∧
    (processNextPendingJob jobs).dispatched = (oldestPending jobs).map (·.jobId) ∧
    (∀ j, oldestPending jobs = some j →
      j ∈ jobs ∧ j.status = .pending ∧
      ∀ b ∈ jobs, b.status = .pending → j.createdAt ≤ b.createdAt) ∧
    (∀ step, createJob jobs newId url createdAt = .ok step →
      step.dispatched =
        if jobs.any (fun j => j.status = .running) then none else some newId) := by
  refine ⟨rfl, rfl, oldestPending_spec jobs, ?_⟩
  intro step hstep
  simp only [createJob] at hstep
  split at hstep
  · cases hstep
  split at hstep
  · cases hstep
  split at hstep
  · rename_i hrun
    rw [if_pos hrun]
    obtain rfl : (⟨_, none⟩ : QueueStep) = step := by injection hstep
    rfl
  · rename_i hrun
    rw [if_neg hrun]
    obtain rfl : (⟨_, some newId⟩ : QueueStep) = step := by injection hstep
    rfl

/-- Witness for C4's amended oldest-pending characterization at a concrete
queue. -/
theorem C4_dispatch_selection_witness :
    jPendOld ∈ [jPendOld] ∧ jPendOld.status = .pending ∧
    ∀ b ∈ [jPendOld], b.status = .pending → jPendOld.createdAt ≤ b.createdAt :=
  (C4_dispatch_selection [jPendOld] 0 2 5 "url-b").2.2.1 jPendOld (by decide)

/-- C5 is falsified on the code: `_cleanup_download` runs in a `finally`
block, so with `keep_download_video = false` a run that fails at the
extraction stage still gets its download directory emptied. -/
theorem C5_counterexample :
    (pipelineRun false (.ok ["video.mp4"]) (.error "Failed to extract slides")
        (.error "unreached")).1 = .error "Failed to extract slides" ∧
    (pipelineRun false (.ok ["video.mp4"]) (.error "Failed to extract slides")
        (.error "unreached")).2.downloadDir = [] := by
  constructor <;> rfl

/-- C5 amended: when configured not to keep the download, the download
directory is emptied on every run exit, failed runs included; the slide
images and the deck are exactly what the stages wrote — the pipeline never
deletes them in either case. -/
theorem C5_cleanup_behaviour (keep : Bool) (dl ex bd : Except String (List String)) :
    (keep = false → (pipelineRun keep dl ex bd).2.downloadDir = []) ∧
    (keep = true → (pipelineRun keep dl ex bd).2.downloadDir =
      (match dl with | .ok d => d | .error _ => [])) ∧
    (pipelineRun keep dl ex bd).2.imagesDir =
      (match dl, ex with | .ok _, .ok s => s | _, _ => []) ∧
    (pipelineRun keep dl ex bd).2.pptDir =
      (match dl, ex, bd with | .ok _, .ok _, .ok p => p | _, _, _ => []) := by
  cases keep <;> cases dl <;> cases ex <;> cases bd <;>
    simp [pipelineRun, cleanupDownload]

/-- Witness for C5 at the failing-run instance: the cleanup emptied the
download directory although the run failed. -/
theorem C5_cleanup_behaviour_witness :
    (pipelineRun false (.ok ["video.mp4"]) (.error "Failed to extract slides")
        (.error "unreached")).2.downloadDir = [] :=
  (C5_cleanup_behaviour false (.ok ["video.mp4"]) (.error "Failed to extract slides")
    (.error "unreached")).1 rfl

/-- C10 (confirmed): whenever the output directory holds at least one
non-empty regular file with a recognized video extension, the download
succeeds — whatever the exit code — returning as primary video the largest
such file, the full candidate list sorted by size descending, and no
zero-byte entries. -/
theorem C10_download_selection (files : List FileEntry) (rc : Int)
    (h : ∃ f ∈ files, isVideoCandidate f = true) :
    ∃ primary rest, bbdownDownload files rc = .ok (primary, primary :: rest) ∧
      primary ∈ files ∧ isVideoCandidate primary = true ∧
      (∀ g ∈ files, isVideoCandidate g = true → g.size ≤ primary.size) ∧
      (primary :: rest).Pairwise (fun a b => b.size ≤ a.size) ∧
      (∀ p ∈ primary :: rest, 0 < p.size ∧ p ∈ files) := by
  obtain ⟨f0, hf0, hc0⟩ := h
  have hmemf : f0 ∈ files.filter isVideoCandidate := List.mem_filter.mpr ⟨hf0, hc0⟩
  have hms : f0 ∈ locateVideoFiles files := by
    rw [locateVideoFiles]
    exact List.mem_mergeSort.mpr hmemf
  have hsorted : (locateVideoFiles files).Pairwise
      (fun a b => decide (b.size ≤ a.size) = true) := by
    rw [locateVideoFiles]
    exact List.sorted_mergeSort
      (by intro a b c hab hbc; simp only [decide_eq_true_eq] at *; omega)
      (by intro a b; simp only [Bool.or_eq_true, decide_eq_true_eq]; omega)
      (files.filter isVideoCandidate)
  have hmem_char : ∀ p, p ∈ locateVideoFiles files ↔ p ∈ files.filter isVideoCandidate := by
    intro p
    rw [locateVideoFiles]
    exact List.mem_mergeSort
  rcases hlv : locateVideoFiles files with _ | ⟨primary, rest⟩
  · rw [hlv] at hms; cases hms
  rw [hlv] at hsorted
  have hsorted' : (primary :: rest).Pairwise (fun a b => b.size ≤ a.size) :=
    hsorted.imp (by intro a b hab; simpa using hab)
  have hmem_all : ∀ p ∈ primary :: rest, 0 < p.size ∧ p ∈ files := by
    intro p hp
    have : p ∈ files.filter isVideoCandidate := by
      rw [← hmem_char p, hlv]; exact hp
    obtain ⟨hin, hcand⟩ := List.mem_filter.mp this
    refine ⟨?_, hin⟩
    have := hcand
    simp only [isVideoCandidate, Bool.and_eq_true, decide_eq_true_eq] at this
    exact this.2
  have hprimary_cand : isVideoCandidate primary = true := by
    have : primary ∈ files.filter isVideoCandidate := by
      rw [← hmem_char primary, hlv]; exact List.mem_cons_self _ _
    exact (List.mem_filter.mp this).2
  have hprimary_mem : primary ∈ files := by
    have : primary ∈ files.filter isVideoCandidate := by
      rw [← hmem_char primary, hlv]; exact List.mem_cons_self _ _
    exact (List.mem_filter.mp this).1
  refine ⟨primary, rest, ?_, hprimary_mem, hprimary_cand, ?_, hsorted', hmem_all⟩
  · simp only [bbdownDownload, hlv]
  · intro g hg hgc
    have : g ∈ primary :: rest := by
      rw [← hlv, hmem_char g]
      exact List.mem_filter.mpr ⟨hg, hgc⟩
    rcases List.mem_cons.mp this with rfl | hgr
    · exact le_refl _
    · exact (List.pairwise_cons.mp hsorted').1 g hgr

/-- Witness for C10 on the fixture directory with a non-zero exit code. -/
theorem C10_download_selection_witness :
    ∃ primary rest, bbdownDownload filesFixture 1 = .ok (primary, primary :: rest) ∧
      primary ∈ filesFixture ∧ isVideoCandidate primary = true ∧
      (∀ g ∈ filesFixture, isVideoCandidate g = true → g.size ≤ primary.size) ∧
      (primary :: rest).Pairwise (fun a b => b.size ≤ a.size) ∧
      (∀ p ∈ primary :: rest, 0 < p.size ∧ p ∈ filesFixture) :=
  C10_download_selection filesFixture 1
    ⟨⟨"a.mp4", ".mp4", 5, true⟩, by decide, by decide⟩

end Video2PPT
